import Mathlib

/-!
Shallow embedding of the OS.js server-side virtual filesystem core
(the Filesystem class of src/filesystem.js) and of the system VFS
adapter (src/adapters/vfs/system.js), together with theorems settling
the specification claims about them.

JavaScript conventions are modelled explicitly:
* absent object properties are Option.none;
* JS truthiness on strings (undefined and the empty string are falsy)
  is the predicate truthyOptStr;
* promise chains over a success/failure outcome are the Except monad,
  with pthen for .then and pcatch for .catch;
* JS objects used as string-keyed dictionaries are association lists
  with jsGet for property lookup and jsAssign for Object.assign;
* side effects that the claims talk about (invocations of a watch
  handle close capability) are recorded in an explicit log carried by
  the state, one entry per invocation.
-/

/-- JS promise .then on a settled outcome: propagate rejection, feed a
fulfilled value to the continuation. -/
def pthen {ε α β : Type} (p : Except ε α) (f : α → Except ε β) : Except ε β :=
  match p with
  | .ok a => f a
  | .error e => .error e

/-- JS promise .catch on a settled outcome: a rejection is mapped by the
handler to a fulfilled value; a fulfilled value passes through. -/
def pcatch {ε α : Type} (p : Except ε α) (h : ε → α) : Except ε α :=
  match p with
  | .ok a => .ok a
  | .error e => .ok (h e)

/-- JS truthiness of an optional string property: undefined and the
empty string are falsy, every other string is truthy. -/
def truthyOptStr : Option String → Bool
  | none => false
  | some s => s ≠ ""

/-- Property lookup on a JS object modelled as an association list:
the first entry with the key, if any. -/
def jsGet {α : Type} (o : List (String × α)) (k : String) : Option α :=
  (o.find? (fun e => e.1 == k)).map (fun e => e.2)

/-- Object.assign(base, extra) as a pure value: every key of base keeps
its position but takes extra value when extra also has the key, and
the keys only extra has are appended. -/
def jsAssign {α : Type} (base extra : List (String × α)) : List (String × α) :=
  base.map (fun e => (e.1, ((jsGet extra e.1).getD e.2))) ++
    extra.filter (fun e => (jsGet base e.1).isNone)

/-- The open attributes object of a mountpoint; only the two properties
the Filesystem class consults are modelled. -/
structure Attributes where
  watch : Option Bool := none
  root : Option String := none
deriving DecidableEq, Repr

/-- A finalized mountpoint as produced by Filesystem.mount. -/
structure Mountpoint where
  id : Nat
  name : String
  root : String
  attributes : Attributes := {}
  adapter : Option String := none
deriving DecidableEq, Repr

/-- A mountpoint descriptor as passed to Filesystem.mount: any property
may be absent (it is then filled in from the defaults object). -/
structure Descriptor where
  id : Option Nat := none
  name : String
  root : Option String := none
  attributes : Option Attributes := none
  adapter : Option String := none
deriving DecidableEq, Repr

/-- A backend watch handle: an identity for the close log, and whether
it exposes a close capability (typeof watch.close === function). -/
structure WatchHandle where
  hid : Nat
  hasClose : Bool
deriving DecidableEq, Repr

/-- An entry of this.watches: mountpoint id paired with the handle. -/
structure WatchEntry where
  id : Nat
  watch : WatchHandle
deriving DecidableEq, Repr

/-- An adapter instance; only the optional watch capability matters to
the Filesystem class (its other capabilities are dispatched opaquely).
Invoking the capability on a mountpoint yields the backend handle. -/
structure Adapter where
  watch : Option (Mountpoint → WatchHandle) := none

/-- The platform context handed to adapter factories (opaque here). -/
structure Core where
  token : Nat
deriving DecidableEq, Repr

/-- The mutable state of a Filesystem instance: the active mountpoint
list, the watch subscription list, the uuid generator (fresh ids are
successive naturals), and the instrumentation log recording every
invocation of a watch handle close capability by handle id. -/
structure FSState where
  mountpoints : List Mountpoint := []
  watches : List WatchEntry := []
  nextId : Nat := 0
  closeLog : List Nat := []
deriving DecidableEq, Repr

namespace Filesystem

/-- Filesystem.destroy: for each recorded watch, invoke close when the
handle exposes it (typeof watch.close === function), then clear the
subscription list. -/
def destroy (st : FSState) : FSState :=
  let log := st.watches.foldl
    (fun acc w => if w.watch.hasClose then acc ++ [w.watch.hid] else acc)
    st.closeLog
  { st with watches := [], closeLog := log }

/-- The second half of Filesystem.unmount: indexOf on the mountpoint
list and splice(index, 1) when found, returning true; false when the
mountpoint is not in the list. -/
def unmountRemove (st : FSState) (m : Mountpoint) : FSState × Bool :=
  match st.mountpoints.indexOf? m with
  | some i => ({ st with mountpoints := st.mountpoints.eraseIdx i }, true)
  | none => (st, false)

/-- Filesystem.unmount: find a watch entry whose id equals the
mountpoint id and call its close (found.watch.close() is invoked with
no capability probe, so a handle without close throws a TypeError),
then remove the mountpoint from the list by identity. The watch entry
itself is not removed from the subscription list. -/
def unmount (st : FSState) (m : Mountpoint) : Except String (FSState × Bool) :=
  match st.watches.find? (fun w => w.id == m.id) with
  | some w =>
    if w.watch.hasClose then
      .ok (unmountRemove { st with closeLog := st.closeLog ++ [w.watch.hid] } m)
    else
      .error "TypeError: found.watch.close is not a function"
  | none => .ok (unmountRemove st m)

/-- The name under which Filesystem.watch looks up the bound adapter:
the mountpoint adapter property when truthy, else the system default. -/
def adapterKey (m : Mountpoint) : String :=
  match m.adapter with
  | some n => if n == "" then "system" else n
  | none => "system"

/-- Filesystem._watch: invoke the adapter watch capability on the
mountpoint (the change callback it receives is modelled separately as
watchChangeBroadcast and watchFilter) and record the subscription as a
mountpoint-id/handle pair. -/
def _watch (st : FSState) (m : Mountpoint) (adWatch : Mountpoint → WatchHandle) : FSState :=
  let watch := adWatch m
  { st with watches := st.watches ++ [{ id := m.id, watch := watch }] }

/-- Filesystem.watch: return silently when the mountpoint attribute
watch is the literal false, or the vfs.watch config is the literal
false, or the attributes root property is falsy; otherwise look up the
bound adapter (an undefined adapter makes the capability probe throw)
and attach via _watch only when it exposes a watch capability. -/
def watch (cfgWatch : Option Bool) (adapters : String → Option Adapter)
    (st : FSState) (m : Mountpoint) : Except String FSState :=
  if m.attributes.watch == some false || cfgWatch == some false ||
      !(truthyOptStr m.attributes.root) then
    .ok st
  else
    match adapters (adapterKey m) with
    | none => .error "TypeError: cannot read watch of undefined"
    | some ad =>
      match ad.watch with
      | some f => .ok (_watch st m f)
      | none => .ok st

/-- Filesystem.mount: Object.assign over the defaults object (a fresh
uuid, root defaulted to name followed by a colon slash, empty
attributes), push onto the mountpoint list, trigger watch attachment,
return the finalized mountpoint. uuid() is evaluated eagerly, so the
generator advances even when the descriptor carries its own id. -/
def mount (cfgWatch : Option Bool) (adapters : String → Option Adapter)
    (st : FSState) (d : Descriptor) : Except String (FSState × Mountpoint) :=
  let mp : Mountpoint := {
    id := d.id.getD st.nextId
    name := d.name
    root := d.root.getD (d.name ++ ":/")
    attributes := d.attributes.getD {}
    adapter := d.adapter }
  let st1 : FSState :=
    { st with mountpoints := st.mountpoints ++ [mp], nextId := st.nextId + 1 }
  match watch cfgWatch adapters st1 mp with
  | .ok st2 => .ok (st2, mp)
  | .error e => .error e

/-- The broadcast call made by the change callback that Filesystem._watch
hands to the adapter: the event name, the absolute virtual path built
as mountpoint name, colon slash, changed dir, and the filter args. -/
structure BroadcastCall where
  eventName : String
  path : String
  args : List (String × String)
deriving DecidableEq, Repr

/-- The event built by the _watch change callback when the backend
fires with (args, dir). -/
def watchChangeBroadcast (m : Mountpoint) (args : List (String × String))
    (dir : String) : BroadcastCall :=
  { eventName := "osjs/vfs:watch:change"
    path := m.name ++ ":/" ++ dir
    args := args }

/-- The recipient filter built by the _watch change callback: with no
keys in args it accepts everyone, otherwise it requires the recipient
session attribute at every key of args to be strictly equal to the args
value there. A recipient session is its _osjs_client attribute map. -/
def watchFilter (args : List (String × String))
    (client : String → Option String) : Bool :=
  let keys := args.map (fun e => e.1)
  if keys.length == 0 then true
  else keys.all (fun k => client k == jsGet args k)

/-- The adapter-registry construction of Filesystem.init: merge the
caller-supplied factories over the built-in system default with
Object.assign, then reduce over the keys, instantiating every factory
on the core eagerly. The accumulator step Object.assign of the fresh
singleton under the accumulated result keeps the earlier instance when
a key would repeat. (The getD default factory is unreachable: every
iterated key is a key of the merged map.) -/
def initAdapters (core : Core) (systemAdapter : Core → Adapter)
    (optAdapters : List (String × (Core → Adapter))) : List (String × Adapter) :=
  let adapters := jsAssign [("system", systemAdapter)] optAdapters
  (adapters.map (fun e => e.1)).foldl
    (fun result iter =>
      jsAssign [(iter, ((jsGet adapters iter).getD (fun _ => {})) core)] result)
    []

/-- JS string-or: the left operand when truthy, else the right. -/
def jsOrStr (x : Option String) (d : String) : String :=
  if truthyOptStr x then x.getD "" else d

/-- Filesystem.mime: the filenames override table at the basename of the
filename when that property is truthy, else the extension lookup of the
external mime library or-else application/octet-stream. The external
path.basename and mime.getType collaborators are parameters. -/
def mime (basename : String → String) (filenames : String → Option String)
    (getType : String → Option String) (filename : String) : String :=
  if truthyOptStr (filenames (basename filename)) then
    (filenames (basename filename)).getD ""
  else
    jsOrStr (getType filename) "application/octet-stream"

end Filesystem

/-- The stat result fields the system adapter writefile consults. -/
structure StatInfo where
  isDirectory : Bool
deriving DecidableEq, Repr

/-- A filesystem error as surfaced by fs, carrying its code. -/
structure FsError where
  code : String
deriving DecidableEq, Repr

namespace SystemAdapter

/-- The write closure of the system adapter writefile: piping the input
stream either ends (resolve true) or errors (reject the error). The
stream outcome is a parameter standing for the external stream. -/
def writeStep (stream : Except FsError Unit) : Except FsError Bool :=
  match stream with
  | .ok _ => .ok true
  | .error e => .error e

/-- The system adapter writefile: stat the resolved destination; on a
directory resolve false, on a plain file overwrite via write, on an
ENOENT stat failure write fresh, on any other stat failure reject. The
external stat outcome and stream outcome are parameters. -/
def writefile (stat : Except FsError StatInfo)
    (stream : Except FsError Unit) : Except FsError Bool :=
  match stat with
  | .ok s => if s.isDirectory then .ok false else writeStep stream
  | .error err => if err.code == "ENOENT" then writeStep stream else .error err

/-- The system adapter exists: resolve the path, fs.access it, map a
rejection to false with catch, then map whatever value remains to true.
The external vfs.resolve and fs.access are parameters. -/
def exists_ (resolve : String → String) (access : String → Except String Unit)
    (file : String) : Except String Bool :=
  pthen
    (pcatch
      (pthen (Except.ok (resolve file))
        (fun realPath => pthen (access realPath)
          (fun _ => Except.ok (none : Option Bool))))
      (fun _ => some false))
    (fun _ => Except.ok true)

end SystemAdapter

/-! ## Witness and counterexample scenarios -/

/-- The mountpoint of the C1 scenario: it has an attached watch. -/
def c1Mountpoint : Mountpoint :=
  { id := 1, name := "home", root := "home:/",
    attributes := { watch := none, root := some "/srv/home" }, adapter := none }

/-- The C1 starting state: c1Mountpoint is mounted and its watch
subscription holds handle 7, which exposes a close capability. -/
def c1State : FSState :=
  { mountpoints := [c1Mountpoint],
    watches := [{ id := 1, watch := { hid := 7, hasClose := true } }],
    nextId := 2, closeLog := [] }

/-- The state after a successful unmount of c1Mountpoint: handle 7 was
closed once, but the subscription entry is still in the watch list. -/
def c1AfterUnmount : FSState :=
  { mountpoints := [],
    watches := [{ id := 1, watch := { hid := 7, hasClose := true } }],
    nextId := 2, closeLog := [7] }

/-- The mountpoint of the C5 witness scenario. -/
def c5Mountpoint : Mountpoint := { id := 0, name := "tmp", root := "tmp:/" }

/-- The C5 witness state: c5Mountpoint mounted, no watches. -/
def c5State : FSState := { mountpoints := [c5Mountpoint], nextId := 1 }

/-- The adapter of the C3 witness: it exposes a watch capability. -/
def c3Adapter : Adapter := { watch := some (fun m => { hid := m.id, hasClose := true }) }

/-- The registry of the C3 witness: only the system adapter. -/
def c3Adapters : String → Option Adapter :=
  fun k => if k == "system" then some c3Adapter else none

/-- The watchable mountpoint of the C3 witness. -/
def c3Watchable : Mountpoint :=
  { id := 4, name := "docs", root := "docs:/",
    attributes := { watch := none, root := some "/srv/docs" } }

/-- The globally disabled scenario state of the C3 witness. -/
def c3State : FSState := { nextId := 5 }

/-- The mountpoint of the C4 witness. -/
def c4Mountpoint : Mountpoint := { id := 9, name := "home", root := "home:/" }

/-- The filter args of the C4 witness. -/
def c4Args : List (String × String) := [("user", "alice")]

/-- A recipient session of the C4 witness whose user attribute matches. -/
def c4Client : String → Option String :=
  fun k => if k == "user" then some "alice" else none

/-- The descriptor of the C6 witness: only a name. -/
def c6Descriptor : Descriptor := { name := "music" }

/-- The finalized mountpoint the C6 witness expects. -/
def c6Mountpoint : Mountpoint := { id := 0, name := "music", root := "music:/" }

/-- The state after the C6 witness mount. -/
def c6After : FSState := { mountpoints := [c6Mountpoint], nextId := 1 }

/-- The core token of the C7 witness. -/
def c7Core : Core := { token := 0 }

/-- The built-in system default factory of the C7 witness. -/
def c7SysDefault : Core → Adapter := fun _ => {}

/-- The caller-supplied override for the name system in the C7 witness:
its instances expose a watch capability, unlike the default. -/
def c7Override : Core → Adapter :=
  fun _ => { watch := some (fun m => { hid := m.id, hasClose := false }) }

/-- The caller-supplied adapter options of the C7 witness. -/
def c7Opts : List (String × (Core → Adapter)) :=
  [("monster", c7Override), ("system", c7Override)]

/-- The external basename of the C8 witness (identity: the witness
filenames carry no directory part). -/
def c8Basename : String → String := fun s => s

/-- The filenames override table of the C8 witness. -/
def c8Filenames : String → Option String :=
  fun bn => if bn == "report.final.json" then some "application/x-report" else none

/-- The extension lookup of the C8 witness, standing for the external
mime library. -/
def c8GetType : String → Option String :=
  fun fn => if fn == "notes.txt" then some "text/plain" else none

/-! ## Helper lemmas -/

theorem destroy_foldl_closes (ws : List WatchEntry) (acc : List Nat) :
    ws.foldl (fun a w => if w.watch.hasClose then a ++ [w.watch.hid] else a) acc =
      acc ++ (ws.filter (fun w => w.watch.hasClose)).map (fun w => w.watch.hid) := by
  induction ws generalizing acc with
  | nil => simp
  | cons w ws ih =>
    by_cases h : w.watch.hasClose <;>
      simp [h, ih, List.filter_cons, List.append_assoc]

theorem eraseIdx_indexOf?_eq_erase (l : List Mountpoint) (m : Mountpoint)
    (h : m ∈ l) : ∃ i, l.indexOf? m = some i ∧ l.eraseIdx i = l.erase m := by
  induction l with
  | nil => cases h
  | cons x xs ih =>
    by_cases hx : x = m
    · subst hx
      exact ⟨0, by simp [List.indexOf?_cons], by simp [List.erase_cons]⟩
    · have hmem : m ∈ xs := by
        rcases List.mem_cons.mp h with h1 | h1
        · exact absurd h1.symm hx
        · exact h1
      obtain ⟨i, hi, he⟩ := ih hmem
      refine ⟨i + 1, ?_, ?_⟩
      · simp [List.indexOf?_cons, hx, hi]
      · simp [List.erase_cons, hx, he]

theorem indexOf?_eq_none_of_not_mem (l : List Mountpoint) (m : Mountpoint)
    (h : m ∉ l) : l.indexOf? m = none := by
  rw [List.indexOf?_eq_none_iff]
  intro x hx hbeq
  exact h (beq_iff_eq.mp hbeq ▸ hx)

theorem unmountRemove_mem (st : FSState) (m : Mountpoint)
    (h : m ∈ st.mountpoints) :
    Filesystem.unmountRemove st m =
      ({ st with mountpoints := st.mountpoints.erase m }, true) := by
  obtain ⟨i, hi, he⟩ := eraseIdx_indexOf?_eq_erase st.mountpoints m h
  simp [Filesystem.unmountRemove, hi, he]

theorem unmountRemove_not_mem (st : FSState) (m : Mountpoint)
    (h : m ∉ st.mountpoints) :
    Filesystem.unmountRemove st m = (st, false) := by
  simp [Filesystem.unmountRemove, indexOf?_eq_none_of_not_mem st.mountpoints m h]

theorem unmountRemove_conclusion (st : FSState) (m : Mountpoint)
    (hc : st.mountpoints.count m ≤ 1) :
    ((Filesystem.unmountRemove st m).2 = true ↔ m ∈ st.mountpoints) ∧
    ((Filesystem.unmountRemove st m).2 = true →
      m ∉ (Filesystem.unmountRemove st m).1.mountpoints) ∧
    ((Filesystem.unmountRemove st m).2 = false →
      (Filesystem.unmountRemove st m).1.mountpoints = st.mountpoints) := by
  by_cases hm : m ∈ st.mountpoints
  · rw [unmountRemove_mem st m hm]
    have hcount : st.mountpoints.count m = 1 :=
      Nat.le_antisymm hc (List.count_pos_iff.mpr hm)
    have hzero : (st.mountpoints.erase m).count m = 0 := by
      rw [List.count_erase_self, hcount]
    refine ⟨by simp [hm], fun _ => ?_, by simp⟩
    intro hmem
    have hmem' : m ∈ st.mountpoints.erase m := hmem
    have := List.count_pos_iff.mpr hmem'
    omega
  · rw [unmountRemove_not_mem st m hm]
    exact ⟨by simp [hm], by simp, fun _ => rfl⟩

theorem jsGet_of_mem_nodup {α : Type} (l : List (String × α)) (kv : String × α)
    (hnd : (l.map (fun e => e.1)).Nodup) (h : kv ∈ l) :
    jsGet l kv.1 = some kv.2 := by
  induction l with
  | nil => cases h
  | cons e l ih =>
    rcases List.mem_cons.mp h with h1 | h1
    · subst h1
      simp [jsGet]
    · have hnd' : (e.1 :: List.map (fun e => e.1) l).Nodup := by simpa using hnd
      have hne : (e.1 == kv.1) = false := by
        rw [beq_eq_false_iff_ne]
        intro heq
        have hmem : kv.1 ∈ List.map (fun e => e.1) l :=
          List.mem_map_of_mem (fun e => e.1) h1
        rw [← heq] at hmem
        exact (List.nodup_cons.mp hnd').1 hmem
      have ht := ih (List.nodup_cons.mp hnd').2 h1
      simpa [jsGet, List.find?, hne] using ht

theorem watch_preserves_mountpoints (cfgWatch : Option Bool)
    (adapters : String → Option Adapter) (st : FSState) (m : Mountpoint)
    (st2 : FSState) (h : Filesystem.watch cfgWatch adapters st m = .ok st2) :
    st2.mountpoints = st.mountpoints := by
  unfold Filesystem.watch at h
  split at h
  · simp only [Except.ok.injEq] at h
    subst h
    rfl
  · split at h
    · simp at h
    · split at h
      · simp only [Except.ok.injEq] at h
        subst h
        simp [Filesystem._watch]
      · simp only [Except.ok.injEq] at h
        subst h
        rfl

theorem jsGet_cons {α : Type} (e : String × α) (l : List (String × α))
    (k : String) :
    jsGet (e :: l) k = if e.1 == k then some e.2 else jsGet l k := by
  cases h : e.1 == k <;> simp [jsGet, List.find?, h]

theorem jsGet_single {α : Type} (k0 : String) (v : α) (k : String) :
    jsGet [(k0, v)] k = if k0 == k then some v else none := by
  cases h : k0 == k <;> simp [jsGet, List.find?, h]

theorem jsGet_eq_none_iff {α : Type} (l : List (String × α)) (k : String) :
    jsGet l k = none ↔ ∀ e ∈ l, e.1 ≠ k := by
  induction l with
  | nil => simp [jsGet]
  | cons e l ih =>
    rw [jsGet_cons]
    by_cases hek : e.1 = k
    · have hbeq : (e.1 == k) = true := beq_iff_eq.mpr hek
      rw [if_pos hbeq]
      constructor
      · intro hc
        exact absurd hc (by simp)
      · intro hall
        exact absurd hek (hall e (List.mem_cons_self e l))
    · have hbeq : (e.1 == k) = false := beq_eq_false_iff_ne.mpr hek
      rw [if_neg (by simp [hbeq]), ih]
      constructor
      · intro hall e2 he2
        rcases List.mem_cons.mp he2 with h1 | h1
        · subst h1
          exact hek
        · exact hall e2 h1
      · intro hall e2 he2
        exact hall e2 (List.mem_cons_of_mem e he2)

theorem mem_keys_iff_isSome {α : Type} (l : List (String × α)) (k : String) :
    k ∈ l.map (fun e => e.1) ↔ (jsGet l k).isSome := by
  induction l with
  | nil => simp [jsGet]
  | cons e l ih =>
    rw [List.map_cons, List.mem_cons, jsGet_cons]
    by_cases hek : e.1 = k
    · have hbeq : (e.1 == k) = true := beq_iff_eq.mpr hek
      rw [if_pos hbeq]
      simp [hek.symm]
    · have hbeq : (e.1 == k) = false := beq_eq_false_iff_ne.mpr hek
      rw [if_neg (by simp [hbeq]), ← ih]
      constructor
      · intro hc
        rcases hc with h1 | h1
        · exact absurd h1.symm hek
        · exact h1
      · intro hc
        exact Or.inr hc

theorem jsGet_filter_key {α : Type} (l : List (String × α))
    (q : String × α → Bool) (k : String)
    (hq : ∀ e : String × α, e.1 = k → q e = true) :
    jsGet (l.filter q) k = jsGet l k := by
  induction l with
  | nil => rfl
  | cons e l ih =>
    by_cases hek : e.1 = k
    · rw [List.filter_cons, if_pos (hq e hek), jsGet_cons, jsGet_cons, ih]
    · have hbeq : (e.1 == k) = false := beq_eq_false_iff_ne.mpr hek
      cases hqe : q e with
      | false =>
        rw [List.filter_cons, if_neg (by simp [hqe]), ih, jsGet_cons, hbeq]
        simp
      | true =>
        rw [List.filter_cons, if_pos (by simp [hqe]), jsGet_cons, hbeq,
          jsGet_cons, hbeq]
        simp [ih]

theorem jsAssign_single_fresh {α : Type} (i : String) (v : α)
    (acc : List (String × α)) (h : jsGet acc i = none) :
    jsAssign [(i, v)] acc = (i, v) :: acc := by
  unfold jsAssign
  have h1 : (jsGet acc i).getD v = v := by rw [h]; rfl
  have h2 : acc.filter (fun e => (jsGet [(i, v)] e.1).isNone) = acc := by
    apply List.filter_eq_self.mpr
    intro e he
    rw [jsGet_single]
    have hne : e.1 ≠ i := (jsGet_eq_none_iff acc i).mp h e he
    have : (i == e.1) = false := beq_eq_false_iff_ne.mpr (Ne.symm hne)
    simp [this]
  simp [h1, h2]

theorem jsGet_assign_single {α : Type} (v0 : α) (opts : List (String × α))
    (k : String) :
    jsGet (jsAssign [("system", v0)] opts) k =
      if (jsGet opts k).isSome then jsGet opts k
      else if k == "system" then some v0 else none := by
  unfold jsAssign
  rw [show ([("system", v0)].map
      (fun e => (e.1, ((jsGet opts e.1).getD e.2)))) =
      [("system", (jsGet opts "system").getD v0)] from rfl]
  rw [List.singleton_append, jsGet_cons]
  by_cases hk : k = "system"
  · subst hk
    rw [if_pos (by simp)]
    cases ho : jsGet opts "system" with
    | some f => simp [ho]
    | none => simp [ho]
  · have hbeq : (("system" : String) == k) = false :=
      beq_eq_false_iff_ne.mpr (fun h => hk h.symm)
    rw [if_neg (by simp [hbeq])]
    rw [jsGet_filter_key opts _ k ?hq]
    case hq =>
      intro e he
      rw [jsGet_single]
      have : (("system" : String) == e.1) = false :=
        beq_eq_false_iff_ne.mpr (fun h => hk (by rw [← he, ← h]))
      simp [this]
    have hkb : ((k == "system") : Bool) = false :=
      beq_eq_false_iff_ne.mpr hk
    cases ho : jsGet opts k with
    | some f => simp [ho]
    | none => simp [ho, hkb]

theorem jsAssign_single_keys_nodup {α : Type} (v0 : α)
    (opts : List (String × α))
    (hnd : (opts.map (fun e => e.1)).Nodup) :
    ((jsAssign [("system", v0)] opts).map (fun e => e.1)).Nodup := by
  unfold jsAssign
  rw [List.map_append]
  rw [show (([("system", v0)].map
      (fun e => (e.1, ((jsGet opts e.1).getD e.2)))).map (fun e => e.1)) =
      ["system"] from rfl]
  rw [List.nodup_append]
  refine ⟨List.nodup_singleton _, ?_, ?_⟩
  · exact hnd.sublist (List.Sublist.map _ (List.filter_sublist opts))
  · intro x hx hx2
    rcases List.mem_singleton.mp hx with rfl
    obtain ⟨e, he, hkeq⟩ := List.mem_map.mp hx2
    have hpred := List.of_mem_filter he
    rw [jsGet_single] at hpred
    rw [hkeq] at hpred
    simp at hpred

theorem initFold_get (core : Core) (merged : List (String × (Core → Adapter)))
    (ks : List String) (hks : ks.Nodup)
    (acc : List (String × Adapter))
    (hacc : ∀ k2 ∈ ks, jsGet acc k2 = none) (k : String) :
    jsGet (ks.foldl (fun result iter =>
        jsAssign [(iter, ((jsGet merged iter).getD (fun _ => {})) core)] result)
      acc) k =
      if k ∈ ks then some (((jsGet merged k).getD (fun _ => {})) core)
      else jsGet acc k := by
  induction ks generalizing acc with
  | nil => simp
  | cons i ks ih =>
    have hnodup := List.nodup_cons.mp hks
    rw [List.foldl_cons]
    rw [jsAssign_single_fresh i _ acc (hacc i (List.mem_cons_self i ks))]
    have hacc2 : ∀ k2 ∈ ks,
        jsGet ((i, ((jsGet merged i).getD (fun _ => {})) core) :: acc) k2 = none := by
      intro k2 hk2
      rw [jsGet_cons]
      have hne : i ≠ k2 := fun h => hnodup.1 (h ▸ hk2)
      rw [if_neg (by simp [beq_eq_false_iff_ne.mpr hne])]
      exact hacc k2 (List.mem_cons_of_mem i hk2)
    rw [ih hnodup.2 _ hacc2]
    by_cases hki : k ∈ ks
    · rw [if_pos hki, if_pos (List.mem_cons_of_mem i hki)]
    · rw [if_neg hki, jsGet_cons]
      by_cases hik : i = k
      · subst hik
        rw [if_pos (by simp), if_pos (List.mem_cons_self i ks)]
      · rw [if_neg (by simp [beq_eq_false_iff_ne.mpr hik])]
        rw [if_neg (by
          intro hc
          rcases List.mem_cons.mp hc with h1 | h1
          · exact hik h1.symm
          · exact hki h1)]

/-! ## Claim theorems -/

/-- C10: for every path argument, resolve function and access-check
outcome, the system adapter exists operation resolves to true — even
when access rejects — because the catch maps the rejection to false and
the final then continuation unconditionally yields true. -/
theorem exists_always_resolves_true (resolve : String → String)
    (access : String → Except String Unit) (file : String) :
    SystemAdapter.exists_ resolve access file = .ok true := by
  cases h : access (resolve file) <;>
    simp [SystemAdapter.exists_, pthen, pcatch, h]

/-- C2 counterexample: with the destination an existing directory and a
healthy input stream, writefile fulfills with the value false — it does
not reject, contradicting the claim that it rejects in this case. -/
theorem writefile_directory_counterexample :
    SystemAdapter.writefile (.ok { isDirectory := true }) (.ok ()) = .ok false ∧
    (SystemAdapter.writefile (.ok { isDirectory := true }) (.ok ())).isOk = true :=
  ⟨rfl, rfl⟩

/-- C2 amended: writefile returns a boolean on success, and when the
destination path is an existing directory it resolves (a fulfillment,
so the success value is a boolean) to the boolean false rather than
rejecting — whatever the input stream would have done. -/
theorem writefile_directory_resolves_false (stream : Except FsError Unit)
    (s : StatInfo) (hdir : s.isDirectory = true) :
    SystemAdapter.writefile (.ok s) stream = .ok false ∧
    (SystemAdapter.writefile (.ok s) stream).isOk = true := by
  have h : SystemAdapter.writefile (.ok s) stream = .ok false := by
    simp [SystemAdapter.writefile, hdir]
  exact ⟨h, by rw [h]; rfl⟩

/-- C2 amended witness: an existing-directory destination with an
erroring stream still fulfills with false. -/
theorem writefile_directory_resolves_false_witness :
    SystemAdapter.writefile (.ok { isDirectory := true })
      (.error { code := "EPIPE" }) = .ok false ∧
    (SystemAdapter.writefile (.ok { isDirectory := true })
      (.error { code := "EPIPE" })).isOk = true :=
  writefile_directory_resolves_false (.error { code := "EPIPE" })
    { isDirectory := true } rfl

/-- C9: destroy invokes close on exactly the recorded handles exposing a
close capability, in order, skipping the others; it empties the
subscription list; and a second destroy is a no-op (the whole state is
unchanged, in particular no further close invocation is logged). -/
theorem destroy_closes_all_then_idempotent (st : FSState) :
    (Filesystem.destroy st).watches = [] ∧
    (Filesystem.destroy st).closeLog =
      st.closeLog ++
        (st.watches.filter (fun w => w.watch.hasClose)).map (fun w => w.watch.hid) ∧
    Filesystem.destroy (Filesystem.destroy st) = Filesystem.destroy st := by
  refine ⟨rfl, ?_, ?_⟩
  · simpa [Filesystem.destroy] using destroy_foldl_closes st.watches st.closeLog
  · simp [Filesystem.destroy]

/-- C1: the code violates the claim. Unmount succeeds (returns true) and
closes handle 7 once, but it does not remove the subscription from the
watch list, so a later destroy closes handle 7 a second time: the close
log ends as two invocations on the same handle, not one. -/
theorem unmount_then_destroy_closes_twice :
    Filesystem.unmount c1State c1Mountpoint = .ok (c1AfterUnmount, true) ∧
    (Filesystem.destroy c1AfterUnmount).closeLog = [7, 7] ∧
    (Filesystem.destroy c1AfterUnmount).closeLog.count 7 = 2 :=
  ⟨rfl, rfl, rfl⟩

/-- C5: when every watch entry matching the mountpoint id exposes close
(so the unprobed close call cannot throw) and the mountpoint occurs at
most once in the list (reference identity), unmount fulfills with a
boolean — never an error — the boolean is true exactly when the
mountpoint was present, a true return leaves it absent from the
listing, and a false return leaves the listing unchanged. -/
theorem unmount_true_iff_present (st : FSState) (m : Mountpoint)
    (hw : ∀ w ∈ st.watches, w.id = m.id → w.watch.hasClose = true)
    (hc : st.mountpoints.count m ≤ 1) :
    ∃ st1 r, Filesystem.unmount st m = Except.ok (st1, r) ∧
      (r = true ↔ m ∈ st.mountpoints) ∧
      (r = true → m ∉ st1.mountpoints) ∧
      (r = false → st1.mountpoints = st.mountpoints) := by
  cases hf : st.watches.find? (fun w => w.id == m.id) with
  | none =>
    refine ⟨(Filesystem.unmountRemove st m).1, (Filesystem.unmountRemove st m).2,
      ?_, unmountRemove_conclusion st m hc⟩
    simp [Filesystem.unmount, hf]
  | some w =>
    have hwc : w.watch.hasClose = true := by
      have hmem := List.mem_of_find?_eq_some hf
      have hpred := List.find?_some hf
      exact hw w hmem (by simpa using hpred)
    refine ⟨(Filesystem.unmountRemove
        { st with closeLog := st.closeLog ++ [w.watch.hid] } m).1,
      (Filesystem.unmountRemove
        { st with closeLog := st.closeLog ++ [w.watch.hid] } m).2, ?_,
      unmountRemove_conclusion
        { st with closeLog := st.closeLog ++ [w.watch.hid] } m hc⟩
    simp [Filesystem.unmount, hf, hwc]

/-- C5 witness: the unmount contract at a concrete state. -/
theorem unmount_true_iff_present_witness :
    (Filesystem.unmount c5State c5Mountpoint).isOk = true ∧
    c5Mountpoint ∈ c5State.mountpoints := by
  obtain ⟨st1, r, heq, hiff, h1, h2⟩ :=
    unmount_true_iff_present c5State c5Mountpoint (by decide) (by decide)
  rw [heq]
  exact ⟨rfl, by decide⟩

/-- C3: watch is a silent no-op — the returned state is the input state,
nothing recorded, no adapter watch capability invoked — whenever the
mountpoint watch attribute is the literal false, or the global
vfs.watch switch is the literal false, or the attributes root property
is falsy; and an absent watch attribute is treated as true: when the
other two conditions hold and the bound adapter exposes a watch
capability, the subscription produced by invoking that capability is
recorded. -/
theorem watch_guard_and_attach (cfgWatch : Option Bool)
    (adapters : String → Option Adapter) (st : FSState) (m : Mountpoint) :
    ((m.attributes.watch = some false ∨ cfgWatch = some false ∨
        truthyOptStr m.attributes.root = false) →
      Filesystem.watch cfgWatch adapters st m = .ok st) ∧
    (m.attributes.watch = none → cfgWatch ≠ some false →
      truthyOptStr m.attributes.root = true →
      ∀ ad f, adapters (Filesystem.adapterKey m) = some ad → ad.watch = some f →
        Filesystem.watch cfgWatch adapters st m =
          .ok { st with watches := st.watches ++ [{ id := m.id, watch := f m }] }) := by
  constructor
  · intro h
    rcases h with h | h | h <;> simp [Filesystem.watch, h]
  · intro hw hc hr ad f had hf
    have hcb : (cfgWatch == some false) = false := by
      cases cfgWatch with
      | none => rfl
      | some b => cases b <;> simp_all
    simp [Filesystem.watch, hw, hcb, hr, had, hf, Filesystem._watch]

/-- C3 witness: both halves at concrete inputs — a no-op under the
disabled global switch, and an attachment when all conditions hold. -/
theorem watch_guard_and_attach_witness :
    Filesystem.watch (some false) c3Adapters c3State c3Watchable = .ok c3State ∧
    Filesystem.watch none c3Adapters c3State c3Watchable =
      .ok { c3State with watches := c3State.watches ++
        [{ id := c3Watchable.id, watch := { hid := 4, hasClose := true } }] } :=
  ⟨(watch_guard_and_attach (some false) c3Adapters c3State c3Watchable).1
      (Or.inr (Or.inl rfl)),
   (watch_guard_and_attach none c3Adapters c3State c3Watchable).2
      rfl (by decide) rfl c3Adapter
      (fun m => { hid := m.id, hasClose := true }) rfl rfl⟩

/-- C4: the change callback broadcasts the absolute virtual path built
by concatenating the mountpoint name, a colon slash, and the changed
dir, carrying the filter args unmodified; the recipient filter accepts
every recipient when args is empty, and otherwise accepts exactly the
recipients whose session attribute at each key of args is strictly
equal to the args value at that key. -/
theorem watch_broadcast_path_and_filter (m : Mountpoint)
    (args : List (String × String)) (dir : String)
    (client : String → Option String)
    (hnd : (args.map (fun e => e.1)).Nodup) :
    (Filesystem.watchChangeBroadcast m args dir).path = m.name ++ ":/" ++ dir ∧
    (Filesystem.watchChangeBroadcast m args dir).args = args ∧
    Filesystem.watchFilter [] client = true ∧
    (Filesystem.watchFilter args client = true ↔ ∀ kv ∈ args, client kv.1 = some kv.2) := by
  refine ⟨rfl, rfl, rfl, ?_⟩
  cases args with
  | nil => simp [Filesystem.watchFilter]
  | cons e rest =>
    simp only [Filesystem.watchFilter]
    rw [if_neg (by simp)]
    rw [List.all_eq_true]
    constructor
    · intro hall kv hkv
      have h1 := hall kv.1 (List.mem_map_of_mem (fun e => e.1) hkv)
      rw [jsGet_of_mem_nodup _ kv hnd hkv] at h1
      exact beq_iff_eq.mp h1
    · intro hkv k hk
      obtain ⟨kv, hkvmem, hkeq⟩ := List.mem_map.mp hk
      subst hkeq
      rw [jsGet_of_mem_nodup _ kv hnd hkvmem]
      exact beq_iff_eq.mpr (hkv kv hkvmem)

/-- C4 witness: the broadcast contract at concrete inputs. -/
theorem watch_broadcast_path_and_filter_witness :
    (Filesystem.watchChangeBroadcast c4Mountpoint c4Args "pictures").path =
      c4Mountpoint.name ++ ":/" ++ "pictures" ∧
    (Filesystem.watchChangeBroadcast c4Mountpoint c4Args "pictures").args = c4Args ∧
    Filesystem.watchFilter [] c4Client = true ∧
    Filesystem.watchFilter c4Args c4Client = true := by
  obtain ⟨h1, h2, h3, h4⟩ :=
    watch_broadcast_path_and_filter c4Mountpoint c4Args "pictures" c4Client
      (by decide)
  exact ⟨h1, h2, h3, h4.mpr (by decide)⟩

/-- C6: a successful mount finalizes the descriptor — the generated id
is used only when the descriptor has none, root defaults to the name
followed by a colon slash only when the descriptor has none, attributes
default to the empty object — appends the finalized mountpoint at the
end of the active list, so the listing gains exactly that one entry,
whose id (under freshness of the generator and of any caller-supplied
id) was previously unseen; the finalized mountpoint is returned. -/
theorem mount_finalizes (cfgWatch : Option Bool)
    (adapters : String → Option Adapter) (st : FSState) (d : Descriptor)
    (st2 : FSState) (mp : Mountpoint)
    (hfresh : ∀ q ∈ st.mountpoints, q.id < st.nextId)
    (hdid : ∀ i, d.id = some i → ∀ q ∈ st.mountpoints, q.id ≠ i)
    (hok : Filesystem.mount cfgWatch adapters st d = .ok (st2, mp)) :
    mp.id = d.id.getD st.nextId ∧
    (d.id = none → mp.id = st.nextId) ∧
    (∀ i, d.id = some i → mp.id = i) ∧
    mp.name = d.name ∧
    mp.root = d.root.getD (d.name ++ ":/") ∧
    (d.root = none → mp.root = d.name ++ ":/") ∧
    mp.attributes = d.attributes.getD {} ∧
    mp.adapter = d.adapter ∧
    st2.mountpoints = st.mountpoints ++ [mp] ∧
    (∀ q ∈ st.mountpoints, q.id ≠ mp.id) := by
  simp only [Filesystem.mount] at hok
  split at hok
  · rename_i st' hw
    simp only [Except.ok.injEq, Prod.mk.injEq] at hok
    obtain ⟨h1, h2⟩ := hok
    subst h1
    subst h2
    have hpres := watch_preserves_mountpoints _ _ _ _ _ hw
    refine ⟨rfl, ?_, ?_, rfl, rfl, ?_, rfl, rfl, ?_, ?_⟩
    · intro h
      simp [h]
    · intro i h
      simp [h]
    · intro h
      simp [h]
    · simpa using hpres
    · intro q hq
      cases hd : d.id with
      | none =>
        simp only [hd, Option.getD_none]
        exact Nat.ne_of_lt (hfresh q hq)
      | some i =>
        simp only [hd, Option.getD_some]
        exact hdid i hd q hq
  · simp at hok

/-- C6 witness: the mount contract at a concrete empty state. -/
theorem mount_finalizes_witness :
    c6Mountpoint.id = c6Descriptor.id.getD (0 : Nat) ∧
    c6Mountpoint.name = c6Descriptor.name ∧
    c6Mountpoint.root = c6Descriptor.root.getD (c6Descriptor.name ++ ":/") ∧
    c6Mountpoint.attributes = c6Descriptor.attributes.getD {} ∧
    c6Mountpoint.adapter = c6Descriptor.adapter ∧
    c6After.mountpoints = ([] : List Mountpoint) ++ [c6Mountpoint] := by
  obtain ⟨h1, h2, h3, h4, h5, h6, h7, h8, h9, h10⟩ :=
    mount_finalizes none (fun _ => none) {} c6Descriptor c6After c6Mountpoint
      (by simp) (by simp) rfl
  exact ⟨h1, h4, h5, h7, h8, h9⟩

/-- C7: after init, looking up any name in the adapter registry yields —
eagerly, as an already-instantiated adapter, never a factory — the
caller-supplied factory applied to the core for every configured name
(including a caller-supplied override of the built-in name system), the
built-in system default applied to the core for the name system when
not overridden, and nothing for any other name. -/
theorem init_registry_contract (core : Core) (systemAdapter : Core → Adapter)
    (optAdapters : List (String × (Core → Adapter))) (k : String)
    (hnd : (optAdapters.map (fun e => e.1)).Nodup) :
    jsGet (Filesystem.initAdapters core systemAdapter optAdapters) k =
      if (jsGet optAdapters k).isSome then
        (jsGet optAdapters k).map (fun f => f core)
      else if k == "system" then some (systemAdapter core) else none := by
  unfold Filesystem.initAdapters
  rw [initFold_get core (jsAssign [("system", systemAdapter)] optAdapters)
    ((jsAssign [("system", systemAdapter)] optAdapters).map (fun e => e.1))
    (jsAssign_single_keys_nodup systemAdapter optAdapters hnd)
    [] (by intro k2 _; rfl) k]
  rw [show jsGet ([] : List (String × Adapter)) k = none from rfl]
  by_cases hk : (jsGet (jsAssign [("system", systemAdapter)] optAdapters) k).isSome
  · rw [if_pos ((mem_keys_iff_isSome _ k).mpr hk)]
    obtain ⟨f, hf⟩ := Option.isSome_iff_exists.mp hk
    rw [hf]
    rw [jsGet_assign_single] at hf
    by_cases ho : (jsGet optAdapters k).isSome
    · rw [if_pos ho] at hf
      rw [if_pos ho, hf]
      rfl
    · rw [if_neg ho] at hf
      rw [if_neg ho]
      by_cases hks : k = "system"
      · rw [if_pos (by simp [hks])] at hf
        rw [if_pos (by simp [hks])]
        rw [Option.some.injEq] at hf
        rw [← hf]
        rfl
      · rw [if_neg (by simp [beq_eq_false_iff_ne.mpr hks])] at hf
        exact absurd hf (by simp)
  · rw [if_neg (fun hc => hk ((mem_keys_iff_isSome _ k).mp hc))]
    rw [jsGet_assign_single] at hk
    by_cases ho : (jsGet optAdapters k).isSome
    · rw [if_pos ho] at hk
      exact absurd ho hk
    · rw [if_neg ho] at hk ⊢
      by_cases hks : k = "system"
      · rw [if_pos (by simp [hks])] at hk
        exact absurd (rfl : (some systemAdapter).isSome = true) hk
      · rw [if_neg (by simp [beq_eq_false_iff_ne.mpr hks])]

/-- C7 witness: registry lookups at concrete configured names,
including the overridden built-in name. -/
theorem init_registry_contract_witness :
    (jsGet (Filesystem.initAdapters c7Core c7SysDefault c7Opts) "system" =
      if (jsGet c7Opts "system").isSome then
        (jsGet c7Opts "system").map (fun f => f c7Core)
      else if ("system" : String) == "system" then some (c7SysDefault c7Core)
      else none) ∧
    (jsGet (Filesystem.initAdapters c7Core c7SysDefault c7Opts) "monster" =
      if (jsGet c7Opts "monster").isSome then
        (jsGet c7Opts "monster").map (fun f => f c7Core)
      else if ("monster" : String) == "system" then some (c7SysDefault c7Core)
      else none) :=
  ⟨init_registry_contract c7Core c7SysDefault c7Opts "system" (by decide),
   init_registry_contract c7Core c7SysDefault c7Opts "monster" (by decide)⟩

/-- C8: mime returns the filenames-table override at the basename
whenever such a (nonempty, hence JS-truthy) entry exists, with priority
over the extension lookup; with no override it returns the extension
lookup result of the external mime library when that yields a
(nonempty) type; with neither it returns application/octet-stream. -/
theorem mime_priority (basename : String → String)
    (filenames getType : String → Option String) (filename : String) :
    (∀ v, filenames (basename filename) = some v → v ≠ "" →
      Filesystem.mime basename filenames getType filename = v) ∧
    (filenames (basename filename) = none →
      ∀ t, getType filename = some t → t ≠ "" →
        Filesystem.mime basename filenames getType filename = t) ∧
    (filenames (basename filename) = none → getType filename = none →
      Filesystem.mime basename filenames getType filename =
        "application/octet-stream") := by
  refine ⟨?_, ?_, ?_⟩
  · intro v hv hne
    simp [Filesystem.mime, hv, truthyOptStr, hne]
  · intro hn t ht htne
    simp [Filesystem.mime, hn, truthyOptStr, Filesystem.jsOrStr, ht, htne]
  · intro hn hg
    simp [Filesystem.mime, hn, hg, truthyOptStr, Filesystem.jsOrStr]

/-- C8 witness: all three branches at concrete filenames. -/
theorem mime_priority_witness :
    Filesystem.mime c8Basename c8Filenames c8GetType "report.final.json" =
      "application/x-report" ∧
    Filesystem.mime c8Basename c8Filenames c8GetType "notes.txt" =
      "text/plain" ∧
    Filesystem.mime c8Basename c8Filenames c8GetType "unknown.xyz123" =
      "application/octet-stream" :=
  ⟨(mime_priority c8Basename c8Filenames c8GetType "report.final.json").1
      "application/x-report" rfl (by decide),
   (mime_priority c8Basename c8Filenames c8GetType "notes.txt").2.1
      rfl "text/plain" rfl (by decide),
   (mime_priority c8Basename c8Filenames c8GetType "unknown.xyz123").2.2
      rfl rfl⟩
